import Mathlib

/-!
# A shallow embedding of the `babylon-forge` reactivity core

This file embeds `src/core/reactivity/index.js` — the fine-grained
reactivity engine (track/trigger dependency graph, effects, refs,
computed cells, watchers, and the reactive map) — as executable Lean
definitions, and proves the specification's testable properties about
them.

Modelling choices, all taken from the source:
* JS runtime values are `Val` (numbers, strings, booleans, `undefined`,
  arrays).  JS strict equality `===` on the values used by this engine
  is structural equality on `Val`.
* All mutable state (the `targetMap` dependency graph, `activeEffect`,
  every closure variable of `useRef`/`useComputed`/`useWatch`/
  `useMapReactive`) lives in one explicit state record `St`, threaded
  through every operation.  Exceptions are `Except String` results; a
  throwing operation still returns the state it mutated up to the
  throw, as JS exceptions do not roll back assignments.
* Effect bodies, watch getters and cleanup callbacks are
  defunctionalised into a small expression type `Exp` covering exactly
  the operations the engine's own API offers (reads of refs, computed
  cells, readonly wrappers and reactive maps), plus sequencing, a
  throwing expression and a pure logging expression standing for an
  observable side effect of user code.
* Invocations of effects and of watch callbacks, `console.warn`
  diagnostics, and `forEach` visits are recorded in an instrumentation
  `log`, so "re-invoked exactly once" becomes a count of log entries.
* The interpreter `run` is one structurally recursive function on a
  fuel argument; each JS function of the source is a constructor of
  `Call`.  All scenarios in this file need only small concrete fuel.
-/

namespace Reactivity

/-- JS runtime values as used by the reactivity engine. -/
inductive Val where
  | num (n : Int)
  | str (s : String)
  | bool (b : Bool)
  | undef
  | arr (vs : List Val)

mutual

/-- Structural equality on `Val`; on the values this engine stores it
coincides with JS strict equality `===`. -/
def Val.beq : Val → Val → Bool
  | .num a, .num b => a == b
  | .str a, .str b => a == b
  | .bool a, .bool b => a == b
  | .undef, .undef => true
  | .arr a, .arr b => Val.beqL a b
  | _, _ => false

/-- Elementwise `Val.beq` on lists. -/
def Val.beqL : List Val → List Val → Bool
  | [], [] => true
  | x :: xs, y :: ys => Val.beq x y && Val.beqL xs ys
  | _, _ => false

end

mutual

theorem Val.beq_iff : ∀ a b : Val, Val.beq a b = true ↔ a = b
  | .num a, .num b => by simp [Val.beq]
  | .num _, .str _ => by simp [Val.beq]
  | .num _, .bool _ => by simp [Val.beq]
  | .num _, .undef => by simp [Val.beq]
  | .num _, .arr _ => by simp [Val.beq]
  | .str _, .num _ => by simp [Val.beq]
  | .str a, .str b => by simp [Val.beq]
  | .str _, .bool _ => by simp [Val.beq]
  | .str _, .undef => by simp [Val.beq]
  | .str _, .arr _ => by simp [Val.beq]
  | .bool _, .num _ => by simp [Val.beq]
  | .bool _, .str _ => by simp [Val.beq]
  | .bool a, .bool b => by simp [Val.beq]
  | .bool _, .undef => by simp [Val.beq]
  | .bool _, .arr _ => by simp [Val.beq]
  | .undef, .num _ => by simp [Val.beq]
  | .undef, .str _ => by simp [Val.beq]
  | .undef, .bool _ => by simp [Val.beq]
  | .undef, .undef => by simp [Val.beq]
  | .undef, .arr _ => by simp [Val.beq]
  | .arr _, .num _ => by simp [Val.beq]
  | .arr _, .str _ => by simp [Val.beq]
  | .arr _, .bool _ => by simp [Val.beq]
  | .arr _, .undef => by simp [Val.beq]
  | .arr a, .arr b => by
      rw [Val.beq, Val.beqL_iff a b]
      simp

theorem Val.beqL_iff : ∀ a b : List Val, Val.beqL a b = true ↔ a = b
  | [], [] => by simp [Val.beqL]
  | [], _ :: _ => by simp [Val.beqL]
  | _ :: _, [] => by simp [Val.beqL]
  | x :: xs, y :: ys => by
      rw [Val.beqL, Bool.and_eq_true, Val.beq_iff x y, Val.beqL_iff xs ys]
      simp

end

instance : DecidableEq Val :=
  fun a b => decidable_of_iff (Val.beq a b = true) (Val.beq_iff a b)

instance {ε α : Type} [DecidableEq ε] [DecidableEq α] : DecidableEq (Except ε α) :=
  fun a b =>
    match a, b with
    | .ok x, .ok y => decidable_of_iff (x = y) (by simp)
    | .error x, .error y => decidable_of_iff (x = y) (by simp)
    | .ok _, .error _ => isFalse (by simp)
    | .error _, .ok _ => isFalse (by simp)

/-- Identity of a tracked object in the dependency graph: a ref cell, a
computed cell, a readonly wrapper, or a reactive map's internal target.
JS keys the `targetMap` WeakMap on object identity; we key on these tags. -/
inductive Target where
  | ref (r : Nat)
  | comp (c : Nat)
  | ro (o : Nat)
  | mapT (m : Nat)
deriving DecidableEq

/-- Instrumentation log: observable events of a run.
`run eid` is recorded each time effect `eid`'s underlying function is
invoked (the body of `effectFn`); `cb` records a watch callback
invocation with its `(newValue, oldValue)` arguments; `note` is an
observable side effect of user code (`Exp.note`); `warn` is a
`console.warn` diagnostic; `iter` is one visit of `forEach`. -/
inductive LogEntry where
  | run (eid : Nat)
  | cb (tag : String) (newV oldV : Val)
  | note (tag : String)
  | warn (msg : String)
  | iter (tag : String) (k : String) (v : Val)
deriving DecidableEq

/-- Defunctionalised user code: the body of an effect, a watch getter,
a computed derivation function, or a cleanup.  Each constructor is one
operation of the engine's API surface. -/
inductive Exp where
  | lit (v : Val)
  | readRef (r : Nat)
  | readComputed (c : Nat)
  | readRO (o : Nat) (k : String)
  | mapGet (m : Nat) (k : String)
  | mapHas (m : Nat) (k : String)
  | mapSize (m : Nat)
  | mapKeys (m : Nat)
  | mapValues (m : Nat)
  | mapEntries (m : Nat)
  | mapForEach (m : Nat) (tag : String)
  | seq (e1 e2 : Exp)
  | throwErr (msg : String)
  | note (tag : String)
deriving DecidableEq

/-- One element of an array-form `useWatch` source: a getter function,
a ref, a computed (both carry `SymbolRef` in JS), or anything else
(`bad`, which the normalised getter rejects at invocation time). -/
inductive WItem where
  | fn (e : Exp)
  | ref (r : Nat)
  | comp (c : Nat)
  | bad
deriving DecidableEq

/-- A `useWatch` source: a function, an array of items, a single ref or
computed cell, or anything else (`bad`). -/
inductive WSource where
  | fn (e : Exp)
  | arr (items : List WItem)
  | ref (r : Nat)
  | comp (c : Nat)
  | bad
deriving DecidableEq

/-- The body stored in an effect record: a plain expression (plain
effects, function/ref-source watch getters), the array-source watch
getter, or the internal invalidation effect of computed cell `c`. -/
inductive EBody where
  | exp (e : Exp)
  | items (l : List WItem)
  | compFx (c : Nat)
deriving DecidableEq

/-- A watch callback, defunctionalised: invoking it logs
`LogEntry.cb tag newValue oldValue` and returns `ret` (the captured
cleanup: `none` models a callback returning `undefined`). -/
structure Callback where
  tag : String
  ret : Option Exp
deriving DecidableEq

/-- An effect record: `effectFn` with its body and optional scheduler.
The only schedulers the source creates are watch `job`s, so the
scheduler is the watch id. -/
structure EffRec where
  body : EBody
  sched : Option Nat
deriving DecidableEq

/-- A computed cell's closure state: the derivation function, the
cached `_value` (initially `undefined`), the `dirty` flag (initially
`true`), and an instrumentation counter of derivation invocations. -/
structure CompRec where
  getter : Exp
  val : Val
  dirty : Bool
  derivs : Nat
deriving DecidableEq

/-- A watcher's closure state: its lazy effect's id, the callback, and
the `oldValue` / `cleanup` / `stop` closure variables of `useWatch`. -/
structure WatchRec where
  eid : Nat
  cb : Callback
  oldValue : Val
  cleanup : Option Exp
  stopped : Bool
  once : Bool
deriving DecidableEq

/-- `useWatch` options. -/
structure WOpts where
  immediate : Bool
  once : Bool
deriving DecidableEq

/-- The whole mutable world of the engine.  `deps` is the `targetMap`
dependency graph flattened to (target, key) pairs; `active` is
`activeEffect`; `fresh` allocates object identities. -/
structure St where
  refs : List (Nat × Val)
  ros : List (Nat × List (String × Val))
  maps : List (Nat × List (String × Val))
  comps : List (Nat × CompRec)
  effs : List (Nat × EffRec)
  watches : List (Nat × WatchRec)
  deps : List ((Target × String) × List Nat)
  active : Option Nat
  log : List LogEntry
  fresh : Nat
deriving DecidableEq

/-- Association-list lookup (models `Map.get` / `WeakMap.get`). -/
def getA {α β : Type} [DecidableEq α] : List (α × β) → α → Option β
  | [], _ => none
  | (k, v) :: t, a => if a = k then some v else getA t a

/-- Association-list update-or-append (models `Map.set`; appending at
the end preserves JS `Map` insertion order). -/
def setA {α β : Type} [DecidableEq α] : List (α × β) → α → β → List (α × β)
  | [], a, b => [(a, b)]
  | (k, v) :: t, a, b => if a = k then (a, b) :: t else (k, v) :: setA t a b

/-- Association-list deletion (models `Map.delete`). -/
def delA {α β : Type} [DecidableEq α] : List (α × β) → α → List (α × β)
  | [], _ => []
  | (k, v) :: t, a => if a = k then t else (k, v) :: delA t a

/-- `Set.add` on a dependent list: idempotent insertion preserving
insertion order, as a JS `Set` does. -/
def depInsert (l : List Nat) (e : Nat) : List Nat :=
  if e ∈ l then l else l ++ [e]

/-- The dependents currently registered for `(t, k)`. -/
def depsOf (s : St) (t : Target) (k : String) : List Nat :=
  (getA s.deps (t, k)).getD []

/-- `track(target, key)`: no-op when there is no active effect;
otherwise registers the active effect as a dependent of `(t, k)`
(idempotently, since the dependents form a set). -/
def trackD (s : St) (t : Target) (k : String) : St :=
  match s.active with
  | none => s
  | some eid =>
      { s with deps := setA s.deps (t, k) (depInsert (depsOf s t k) eid) }

/-- `hasChanged(newValue, oldValue)` from `useWatch`: arrays compare by
length then elementwise strict inequality; everything else by strict
inequality. -/
def hasChanged : Val → Val → Bool
  | .arr a, .arr b =>
      if a.length ≠ b.length then true
      else (a.zip b).any fun p => decide (p.1 ≠ p.2)
  | n, o => decide (n ≠ o)

/-- `Array.isArray(newValue) ? [...newValue] : newValue`: the shallow
copy taken before storing a watch's old value.  On immutable `Val` the
copy is identity, but the branch mirrors the source. -/
def shCopy : Val → Val
  | .arr l => .arr l
  | v => v

/-- The calls of the mutually recursive part of the engine, as data:
`exp` evaluates user code, `items` evaluates an array-source getter,
`body` runs an effect body, `invoke` runs `effectFn` for an effect id,
`trig` is `trigger(target, key)`, `deps` iterates a dependent list, and
`job` is a watcher's scheduler. -/
inductive Call where
  | exp (e : Exp)
  | items (l : List WItem)
  | body (b : EBody)
  | invoke (eid : Nat)
  | trig (t : Target) (k : String)
  | deps (l : List Nat)
  | job (wid : Nat)

/-- The interpreter.  One fuel unit is consumed per internal call; all
recursion is structural on the fuel, so every scenario below reduces by
kernel computation.  `Exp`-valued calls return the produced `Val`;
`trig`/`deps`/`job` return `Val.undef`. -/
def run : Nat → St → Call → St × Except String Val
  | 0, s, _ => (s, .error "out of fuel")
  | fuel + 1, s, c =>
    match c with
    | .exp e =>
      match e with
      | .lit v => (s, .ok v)
      | .readRef r =>
        match getA s.refs r with
        | none => (s, .error "no such ref")
        | some v => (trackD s (.ref r) "value", .ok v)
      | .readComputed c =>
        match getA s.comps c with
        | none => (s, .error "no such computed")
        | some cr =>
          if cr.dirty then
            let s1 := { s with comps := setA s.comps c { cr with derivs := cr.derivs + 1 } }
            match run fuel s1 (.exp cr.getter) with
            | (s2, .error m) => (s2, .error m)
            | (s2, .ok v) =>
              match getA s2.comps c with
              | none => (s2, .error "no such computed")
              | some cr2 =>
                let s3 := { s2 with comps := setA s2.comps c { cr2 with val := v, dirty := false } }
                (trackD s3 (.comp c) "value", .ok v)
          else
            (trackD s (.comp c) "value", .ok cr.val)
      | .readRO o k =>
        match getA s.ros o with
        | none => (s, .error "no such readonly")
        | some props => (s, .ok ((getA props k).getD .undef))
      | .mapGet m k =>
        match getA s.maps m with
        | none => (s, .error "no such map")
        | some entries => (trackD s (.mapT m) k, .ok ((getA entries k).getD .undef))
      | .mapHas m k =>
        match getA s.maps m with
        | none => (s, .error "no such map")
        | some entries => (trackD s (.mapT m) k, .ok (.bool (getA entries k).isSome))
      | .mapSize m =>
        match getA s.maps m with
        | none => (s, .error "no such map")
        | some entries => (trackD s (.mapT m) "size", .ok (.num entries.length))
      | .mapKeys m =>
        match getA s.maps m with
        | none => (s, .error "no such map")
        | some entries => (s, .ok (.arr (entries.map fun p => .str p.1)))
      | .mapValues m =>
        match getA s.maps m with
        | none => (s, .error "no such map")
        | some entries => (s, .ok (.arr (entries.map Prod.snd)))
      | .mapEntries m =>
        match getA s.maps m with
        | none => (s, .error "no such map")
        | some entries => (s, .ok (.arr (entries.map fun p => .arr [.str p.1, p.2])))
      | .mapForEach m tag =>
        match getA s.maps m with
        | none => (s, .error "no such map")
        | some entries =>
          ({ s with log := s.log ++ entries.map fun p => .iter tag p.1 p.2 }, .ok .undef)
      | .seq e1 e2 =>
        match run fuel s (.exp e1) with
        | (s1, .error m) => (s1, .error m)
        | (s1, .ok _) => run fuel s1 (.exp e2)
      | .throwErr m => (s, .error m)
      | .note t => ({ s with log := s.log ++ [.note t] }, .ok .undef)
    | .items l =>
      match l with
      | [] => (s, .ok (.arr []))
      | i :: t =>
        let step : St × Except String Val :=
          match i with
          | .fn e => run fuel s (.exp e)
          | .ref r => run fuel s (.exp (.readRef r))
          | .comp c => run fuel s (.exp (.readComputed c))
          | .bad => (s, .error "source error")
        match step with
        | (s1, .error m) => (s1, .error m)
        | (s1, .ok v) =>
          match run fuel s1 (.items t) with
          | (s2, .error m) => (s2, .error m)
          | (s2, .ok (.arr vs)) => (s2, .ok (.arr (v :: vs)))
          | (s2, .ok _) => (s2, .error "impossible")
    | .body b =>
      match b with
      | .exp e => run fuel s (.exp e)
      | .items l => run fuel s (.items l)
      | .compFx c =>
        match getA s.comps c with
        | none => (s, .error "no such computed")
        | some cr =>
          let s1 := { s with comps := setA s.comps c { cr with derivs := cr.derivs + 1 } }
          match run fuel s1 (.exp cr.getter) with
          | (s2, .error m) => (s2, .error m)
          | (s2, .ok _) =>
            match getA s2.comps c with
            | none => (s2, .error "no such computed")
            | some cr2 =>
              let s3 := { s2 with comps := setA s2.comps c { cr2 with dirty := true } }
              run fuel s3 (.trig (.comp c) "value")
    | .invoke eid =>
      match getA s.effs eid with
      | none => (s, .error "no such effect")
      | some er =>
        let s1 := { s with active := some eid, log := s.log ++ [.run eid] }
        match run fuel s1 (.body er.body) with
        | (s2, r) => ({ s2 with active := none }, r)
    | .trig t k => run fuel s (.deps (depsOf s t k))
    | .deps l =>
      match l with
      | [] => (s, .ok .undef)
      | eid :: t =>
        match getA s.effs eid with
        | none => run fuel s (.deps t)
        | some er =>
          let step : St × Except String Val :=
            match er.sched with
            | some wid => run fuel s (.job wid)
            | none => run fuel s (.invoke eid)
          match step with
          | (s1, .error m) => (s1, .error m)
          | (s1, .ok _) => run fuel s1 (.deps t)
    | .job wid =>
      match getA s.watches wid with
      | none => (s, .error "no such watch")
      | some w =>
        if w.stopped then (s, .ok .undef)
        else
          match run fuel s (.invoke w.eid) with
          | (s1, .error m) => (s1, .error m)
          | (s1, .ok v) =>
            match getA s1.watches wid with
            | none => (s1, .error "no such watch")
            | some w1 =>
              if hasChanged v w1.oldValue then
                let s2 := { s1 with log := s1.log ++ [LogEntry.cb w1.cb.tag v w1.oldValue] }
                let w2 := { w1 with
                  oldValue := shCopy v
                  cleanup := w1.cb.ret
                  stopped := if w1.once then true else w1.stopped }
                ({ s2 with watches := setA s2.watches wid w2 }, .ok .undef)
              else (s1, .ok .undef)

/-- Convenience wrappers naming the `Call` constructors. -/
def evalExp (fuel : Nat) (s : St) (e : Exp) : St × Except String Val :=
  run fuel s (.exp e)

def invokeEffect (fuel : Nat) (s : St) (eid : Nat) : St × Except String Val :=
  run fuel s (.invoke eid)

def triggerKey (fuel : Nat) (s : St) (t : Target) (k : String) : St × Except String Val :=
  run fuel s (.trig t k)

/-- The empty initial world. -/
def init : St :=
  { refs := [], ros := [], maps := [], comps := [], effs := [], watches := []
    deps := [], active := none, log := [], fresh := 0 }

/-- `useRef(value)`: allocate a fresh ref cell holding `value`. -/
def useRefOp (s : St) (v : Val) : St × Nat :=
  let r := s.fresh
  ({ s with refs := setA s.refs r v, fresh := r + 1 }, r)

/-- The ref's value setter: `if (_value !== newValue) { _value = newValue;
trigger(this, "value") }`.  A write of the stored value does nothing. -/
def setRefOp (fuel : Nat) (s : St) (r : Nat) (v : Val) : St × Except String Val :=
  match getA s.refs r with
  | none => (s, .error "no such ref")
  | some old =>
    if old = v then (s, .ok .undef)
    else triggerKey fuel { s with refs := setA s.refs r v } (.ref r) "value"

/-- `effect(fn, options)`: allocate the effect record; unless `lazy`,
run it once immediately (an exception from that first run propagates
out of `effect`, as in the source). -/
def effectOp (fuel : Nat) (s : St) (body : EBody) (sched : Option Nat) (lazy : Bool) :
    St × Except String Nat :=
  let eid := s.fresh
  let s1 := { s with effs := setA s.effs eid ⟨body, sched⟩, fresh := eid + 1 }
  if lazy then (s1, .ok eid)
  else
    match invokeEffect fuel s1 eid with
    | (s2, .error m) => (s2, .error m)
    | (s2, .ok _) => (s2, .ok eid)

/-- `useComputed(getter)`: allocate the cell (`_value` undefined,
`dirty` true), then create the non-lazy internal invalidation effect —
which therefore invokes `getter` once right away. -/
def useComputedOp (fuel : Nat) (s : St) (g : Exp) : St × Except String Nat :=
  let c := s.fresh
  let s1 := { s with comps := setA s.comps c ⟨g, .undef, true, 0⟩, fresh := c + 1 }
  match effectOp fuel s1 (.compFx c) none false with
  | (s2, .error m) => (s2, .error m)
  | (s2, .ok _) => (s2, .ok c)

/-- `useReadonly(target)`: snapshot the object's own properties behind
a proxy whose only traps are `set` and `deleteProperty`. -/
def useReadonlyOp (s : St) (props : List (String × Val)) : St × Nat :=
  let o := s.fresh
  ({ s with ros := setA s.ros o props, fresh := o + 1 }, o)

/-- The readonly `set` trap: warn and change nothing. -/
def setROOp (s : St) (_o : Nat) (_k : String) (_v : Val) : St × Except String Val :=
  ({ s with log := s.log ++ [.warn "Set operation on readonly object is not allowed"] },
   .ok .undef)

/-- The readonly `deleteProperty` trap: warn and change nothing. -/
def deleteROOp (s : St) (_o : Nat) (_k : String) : St × Except String Val :=
  ({ s with log := s.log ++ [.warn "Delete operation on readonly object is not allowed"] },
   .ok .undef)

/-- `useMapReactive(entries)`: allocate the backing native map (later
entries overwrite earlier ones, as in `new Map(entries)`). -/
def useMapReactiveOp (s : St) (entries : List (String × Val)) : St × Nat :=
  let m := s.fresh
  ({ s with
      maps := setA s.maps m (entries.foldl (fun acc p => setA acc p.1 p.2) [])
      fresh := m + 1 },
   m)

/-- `reactiveMap.set(key, value)`: write the native map, then trigger
the key and `"size"` only if the key is new or the value changed. -/
def mapSetOp (fuel : Nat) (s : St) (m : Nat) (k : String) (v : Val) :
    St × Except String Val :=
  match getA s.maps m with
  | none => (s, .error "no such map")
  | some entries =>
    let hadKey := (getA entries k).isSome
    let old := getA entries k
    let s1 := { s with maps := setA s.maps m (setA entries k v) }
    if ¬hadKey ∨ old ≠ some v then
      match triggerKey fuel s1 (.mapT m) k with
      | (s2, .error e) => (s2, .error e)
      | (s2, .ok _) => triggerKey fuel s2 (.mapT m) "size"
    else (s1, .ok .undef)

/-- `reactiveMap.delete(key)`: delete from the native map, then trigger
the key and `"size"` only if the key existed. -/
def mapDeleteOp (fuel : Nat) (s : St) (m : Nat) (k : String) : St × Except String Val :=
  match getA s.maps m with
  | none => (s, .error "no such map")
  | some entries =>
    let hadKey := (getA entries k).isSome
    let s1 := { s with maps := setA s.maps m (delA entries k) }
    if hadKey then
      match triggerKey fuel s1 (.mapT m) k with
      | (s2, .error e) => (s2, .error e)
      | (s2, .ok _) =>
        match triggerKey fuel s2 (.mapT m) "size" with
        | (s3, .error e) => (s3, .error e)
        | (s3, .ok _) => (s3, .ok (.bool true))
    else (s1, .ok (.bool false))

/-- The normalised watch getter, as an effect body. -/
def normalize : WSource → Except String EBody
  | .fn e => .ok (.exp e)
  | .arr l => .ok (.items l)
  | .ref r => .ok (.exp (.readRef r))
  | .comp c => .ok (.exp (.readComputed c))
  | .bad => .error "source error"

/-- `useWatch(source, callback, options)`: normalise the source (an
unrecognised source throws `"source error"` at once), create the lazy
effect whose scheduler is this watcher's `job`, then either drive the
first run through `job` (immediate) or run the effect once directly
purely to establish tracking and capture the initial old value.
Returns the watch id, which the stop function closes over. -/
def useWatchOp (fuel : Nat) (s : St) (src : WSource) (cb : Callback) (opts : WOpts) :
    St × Except String Nat :=
  match normalize src with
  | .error m => (s, .error m)
  | .ok body =>
    let wid := s.fresh
    let eid := s.fresh + 1
    let s1 := { s with
      watches := setA s.watches wid ⟨eid, cb, .undef, none, false, opts.once⟩
      effs := setA s.effs eid ⟨body, some wid⟩
      fresh := s.fresh + 2 }
    if opts.immediate then
      match run fuel s1 (.job wid) with
      | (s2, .error m) => (s2, .error m)
      | (s2, .ok _) => (s2, .ok wid)
    else
      match invokeEffect fuel s1 eid with
      | (s2, .error m) => (s2, .error m)
      | (s2, .ok v) =>
        match getA s2.watches wid with
        | none => (s2, .error "no such watch")
        | some w =>
          ({ s2 with watches := setA s2.watches wid { w with oldValue := shCopy v } },
           .ok wid)

/-- The stop function returned by `useWatch`:
`() => { cleanup?.(); stop = true; }`.  Note it re-invokes the captured
cleanup on every call and never clears it. -/
def stopOp (fuel : Nat) (s : St) (wid : Nat) : St × Except String Val :=
  match getA s.watches wid with
  | none => (s, .error "no such watch")
  | some w =>
    match w.cleanup with
    | none => ({ s with watches := setA s.watches wid { w with stopped := true } }, .ok .undef)
    | some e =>
      match evalExp fuel s e with
      | (s1, .error m) => (s1, .error m)
      | (s1, .ok _) =>
        match getA s1.watches wid with
        | none => (s1, .error "no such watch")
        | some w1 =>
          ({ s1 with watches := setA s1.watches wid { w1 with stopped := true } }, .ok .undef)

/-- `reactiveMap.watchSize(callback, options)` is
`useWatch(() => reactiveMap.size, callback, options)`. -/
def watchSizeOp (fuel : Nat) (s : St) (m : Nat) (cb : Callback) (opts : WOpts) :
    St × Except String Nat :=
  useWatchOp fuel s (.fn (.mapSize m)) cb opts

/-- A body reading `r.value` exactly `k + 1` times. -/
def readN : Nat → Nat → Exp
  | 0, r => .readRef r
  | k + 1, r => .seq (.readRef r) (readN k r)

/-- How many times effect `eid` has been invoked, per the log. -/
def countRun (l : List LogEntry) (eid : Nat) : Nat :=
  (l.filter fun x => x = .run eid).length

/-- How many times the callback tagged `tag` has been invoked. -/
def countCb (l : List LogEntry) (tag : String) : Nat :=
  (l.filter fun x =>
    match x with
    | .cb t _ _ => t = tag
    | _ => false).length

/-- How many observable `note t` side effects are in the log. -/
def countNote (l : List LogEntry) (t : String) : Nat :=
  (l.filter fun x => x = .note t).length

/-- The callback-invocation entries of a log, in order. -/
def cbEntries (l : List LogEntry) : List LogEntry :=
  l.filter fun x =>
    match x with
    | .cb _ _ _ => true
    | _ => false

/-! ## Association-list lemmas -/

theorem getA_setA_self {α β : Type} [DecidableEq α] (l : List (α × β)) (a : α) (b : β) :
    getA (setA l a b) a = some b := by
  induction l with
  | nil => simp [getA, setA]
  | cons h t ih =>
    by_cases hk : a = h.1
    · simp [setA, hk, getA]
    · simp [setA, hk, getA, ih]

theorem getA_setA_ne {α β : Type} [DecidableEq α] (l : List (α × β)) (a a' : α) (b : β)
    (h : a' ≠ a) : getA (setA l a b) a' = getA l a' := by
  induction l with
  | nil => simp [getA, setA, h]
  | cons hd t ih =>
    by_cases hk : a = hd.1
    · simp only [setA, if_pos hk, getA]
      rw [if_neg h, if_neg (hk ▸ h)]
    · simp only [setA, if_neg hk]
      by_cases hk2 : a' = hd.1
      · simp [getA, hk2]
      · simp [getA, hk2, ih]

theorem setA_eq_of_getA {α β : Type} [DecidableEq α] (l : List (α × β)) (a : α) (b : β)
    (h : getA l a = some b) : setA l a b = l := by
  induction l with
  | nil => simp [getA] at h
  | cons hd t ih =>
    by_cases hk : a = hd.1
    · simp only [getA, if_pos hk] at h
      injection h with h2
      simp only [setA, if_pos hk, hk, ← h2]
      simp
    · simp only [getA, if_neg hk] at h
      simp [setA, hk, ih h]

theorem setA_setA {α β : Type} [DecidableEq α] (l : List (α × β)) (a : α) (b c : β) :
    setA (setA l a b) a c = setA l a c := by
  induction l with
  | nil => simp [setA]
  | cons hd t ih =>
    by_cases hk : a = hd.1
    · simp [setA, hk]
    · simp [setA, hk, ih]

/-! ## `track` lemmas -/

/-- Without an active effect, `track` is a no-op. -/
theorem trackD_of_active_none {s : St} (t : Target) (k : String) (h : s.active = none) :
    trackD s t k = s := by
  simp [trackD, h]

/-- Registering an effect already registered for `(t, k)` changes
nothing: dependents form a set, so registration is idempotent. -/
theorem trackD_of_mem {s : St} {t : Target} {k : String} {l : List Nat} {eid : Nat}
    (ha : s.active = some eid) (hd : getA s.deps (t, k) = some l) (hm : eid ∈ l) :
    trackD s t k = s := by
  have key : setA s.deps (t, k) (depInsert (depsOf s t k) eid) = s.deps := by
    rw [depsOf, hd, Option.getD_some, depInsert, if_pos hm]
    exact setA_eq_of_getA _ _ _ hd
  rw [trackD, ha]
  show ({ refs := s.refs, ros := s.ros, maps := s.maps, comps := s.comps, effs := s.effs,
          watches := s.watches, deps := setA s.deps (t, k) (depInsert (depsOf s t k) eid),
          active := some eid, log := s.log, fresh := s.fresh } : St) = s
  rw [key, ← ha]

/-! ## `hasChanged` characterisation -/

theorem hasChanged_arr_aux (a b : List Val) :
    ((if a.length ≠ b.length then true
      else (a.zip b).any fun p => decide (p.1 ≠ p.2)) = true) ↔ a ≠ b := by
  induction a generalizing b with
  | nil => cases b <;> simp
  | cons x xs ih =>
    cases b with
    | nil => simp
    | cons y ys =>
      by_cases hl : xs.length = ys.length
      · have ih2 : ((xs.zip ys).any fun p => decide (p.1 ≠ p.2)) = true ↔ xs ≠ ys := by
          have h3 := ih ys
          rwa [if_neg (show ¬ xs.length ≠ ys.length by simp [hl])] at h3
        simp only [List.length_cons, List.zip_cons_cons, List.any_cons]
        rw [if_neg (show ¬ xs.length + 1 ≠ ys.length + 1 by simp [hl])]
        by_cases hxy : x = y
        · subst hxy
          rw [show (decide (x ≠ x)) = false by simp, Bool.false_or, ih2]
          simp
        · constructor
          · intro _ hc
            injection hc with h1 _
            exact hxy h1
          · intro _
            rw [show (decide (x ≠ y)) = true by simp [hxy], Bool.true_or]
      · rw [if_pos (by simp [hl])]
        constructor
        · intro _ hc
          injection hc with h1 h2
          exact hl (by rw [h2])
        · intro _
          rfl

/-- `hasChanged` detects exactly structural (JS strict) inequality:
for array values it compares length and then elementwise, which on
structural values coincides with inequality of the arrays. -/
theorem hasChanged_iff (x y : Val) : hasChanged x y = true ↔ x ≠ y := by
  cases x with
  | arr a =>
    cases y with
    | arr b =>
      rw [hasChanged]
      rw [hasChanged_arr_aux]
      simp
    | num n => simp [hasChanged]
    | str s => simp [hasChanged]
    | bool b => simp [hasChanged]
    | undef => simp [hasChanged]
  | num n => cases y <;> simp [hasChanged]
  | str s => cases y <;> simp [hasChanged]
  | bool b => cases y <;> simp [hasChanged]
  | undef => cases y <;> simp [hasChanged]

theorem hasChanged_self (x : Val) : hasChanged x x = false := by
  rw [← Bool.not_eq_true, hasChanged_iff]
  simp

/-! ## Step equations for the interpreter

Each lemma restates one branch of `run` at successor fuel; all hold by
`rfl` and let proofs unfold the interpreter one call at a time. -/

theorem run_zero (s : St) (c : Call) : run 0 s c = (s, .error "out of fuel") := rfl

theorem run_exp_lit (f : Nat) (s : St) (v : Val) :
    run (f + 1) s (.exp (.lit v)) = (s, .ok v) := rfl

theorem run_exp_readRef (f : Nat) (s : St) (r : Nat) :
    run (f + 1) s (.exp (.readRef r)) =
      match getA s.refs r with
      | none => (s, .error "no such ref")
      | some v => (trackD s (.ref r) "value", .ok v) := rfl

theorem run_exp_readComputed (f : Nat) (s : St) (c : Nat) :
    run (f + 1) s (.exp (.readComputed c)) =
      match getA s.comps c with
      | none => (s, .error "no such computed")
      | some cr =>
        if cr.dirty then
          match run f { s with comps := setA s.comps c { cr with derivs := cr.derivs + 1 } }
              (.exp cr.getter) with
          | (s2, .error m) => (s2, .error m)
          | (s2, .ok v) =>
            match getA s2.comps c with
            | none => (s2, .error "no such computed")
            | some cr2 =>
              (trackD { s2 with comps := setA s2.comps c { cr2 with val := v, dirty := false } }
                (.comp c) "value", .ok v)
        else (trackD s (.comp c) "value", .ok cr.val) := rfl

theorem run_exp_readRO (f : Nat) (s : St) (o : Nat) (k : String) :
    run (f + 1) s (.exp (.readRO o k)) =
      match getA s.ros o with
      | none => (s, .error "no such readonly")
      | some props => (s, .ok ((getA props k).getD .undef)) := rfl

theorem run_exp_mapGet (f : Nat) (s : St) (m : Nat) (k : String) :
    run (f + 1) s (.exp (.mapGet m k)) =
      match getA s.maps m with
      | none => (s, .error "no such map")
      | some entries => (trackD s (.mapT m) k, .ok ((getA entries k).getD .undef)) := rfl

theorem run_exp_mapHas (f : Nat) (s : St) (m : Nat) (k : String) :
    run (f + 1) s (.exp (.mapHas m k)) =
      match getA s.maps m with
      | none => (s, .error "no such map")
      | some entries => (trackD s (.mapT m) k, .ok (.bool (getA entries k).isSome)) := rfl

theorem run_exp_mapSize (f : Nat) (s : St) (m : Nat) :
    run (f + 1) s (.exp (.mapSize m)) =
      match getA s.maps m with
      | none => (s, .error "no such map")
      | some entries => (trackD s (.mapT m) "size", .ok (.num entries.length)) := rfl

theorem run_exp_mapKeys (f : Nat) (s : St) (m : Nat) :
    run (f + 1) s (.exp (.mapKeys m)) =
      match getA s.maps m with
      | none => (s, .error "no such map")
      | some entries => (s, .ok (.arr (entries.map fun p => .str p.1))) := rfl

theorem run_exp_mapValues (f : Nat) (s : St) (m : Nat) :
    run (f + 1) s (.exp (.mapValues m)) =
      match getA s.maps m with
      | none => (s, .error "no such map")
      | some entries => (s, .ok (.arr (entries.map Prod.snd))) := rfl

theorem run_exp_mapEntries (f : Nat) (s : St) (m : Nat) :
    run (f + 1) s (.exp (.mapEntries m)) =
      match getA s.maps m with
      | none => (s, .error "no such map")
      | some entries => (s, .ok (.arr (entries.map fun p => .arr [.str p.1, p.2]))) := rfl

theorem run_exp_mapForEach (f : Nat) (s : St) (m : Nat) (tag : String) :
    run (f + 1) s (.exp (.mapForEach m tag)) =
      match getA s.maps m with
      | none => (s, .error "no such map")
      | some entries =>
        ({ s with log := s.log ++ entries.map fun p => .iter tag p.1 p.2 }, .ok .undef) := rfl

theorem run_exp_seq (f : Nat) (s : St) (e1 e2 : Exp) :
    run (f + 1) s (.exp (.seq e1 e2)) =
      match run f s (.exp e1) with
      | (s1, .error m) => (s1, .error m)
      | (s1, .ok _) => run f s1 (.exp e2) := rfl

theorem run_exp_throwErr (f : Nat) (s : St) (m : String) :
    run (f + 1) s (.exp (.throwErr m)) = (s, .error m) := rfl

theorem run_exp_note (f : Nat) (s : St) (t : String) :
    run (f + 1) s (.exp (.note t)) = ({ s with log := s.log ++ [.note t] }, .ok .undef) := rfl

theorem run_items_nil (f : Nat) (s : St) :
    run (f + 1) s (.items []) = (s, .ok (.arr [])) := rfl

theorem run_items_cons (f : Nat) (s : St) (i : WItem) (t : List WItem) :
    run (f + 1) s (.items (i :: t)) =
      match (match i with
             | .fn e => run f s (.exp e)
             | .ref r => run f s (.exp (.readRef r))
             | .comp c => run f s (.exp (.readComputed c))
             | .bad => (s, .error "source error")) with
      | (s1, .error m) => (s1, .error m)
      | (s1, .ok v) =>
        match run f s1 (.items t) with
        | (s2, .error m) => (s2, .error m)
        | (s2, .ok (.arr vs)) => (s2, .ok (.arr (v :: vs)))
        | (s2, .ok _) => (s2, .error "impossible") := rfl

theorem run_body_exp (f : Nat) (s : St) (e : Exp) :
    run (f + 1) s (.body (.exp e)) = run f s (.exp e) := rfl

theorem run_body_items (f : Nat) (s : St) (l : List WItem) :
    run (f + 1) s (.body (.items l)) = run f s (.items l) := rfl

theorem run_body_compFx (f : Nat) (s : St) (c : Nat) :
    run (f + 1) s (.body (.compFx c)) =
      match getA s.comps c with
      | none => (s, .error "no such computed")
      | some cr =>
        match run f { s with comps := setA s.comps c { cr with derivs := cr.derivs + 1 } }
            (.exp cr.getter) with
        | (s2, .error m) => (s2, .error m)
        | (s2, .ok _) =>
          match getA s2.comps c with
          | none => (s2, .error "no such computed")
          | some cr2 =>
            run f { s2 with comps := setA s2.comps c { cr2 with dirty := true } }
              (.trig (.comp c) "value") := rfl

theorem run_invoke (f : Nat) (s : St) (eid : Nat) :
    run (f + 1) s (.invoke eid) =
      match getA s.effs eid with
      | none => (s, .error "no such effect")
      | some er =>
        match run f { s with active := some eid, log := s.log ++ [.run eid] } (.body er.body) with
        | (s2, r) => ({ s2 with active := none }, r) := rfl

theorem run_trig (f : Nat) (s : St) (t : Target) (k : String) :
    run (f + 1) s (.trig t k) = run f s (.deps (depsOf s t k)) := rfl

theorem run_deps_nil (f : Nat) (s : St) :
    run (f + 1) s (.deps []) = (s, .ok .undef) := rfl

theorem run_deps_cons (f : Nat) (s : St) (eid : Nat) (t : List Nat) :
    run (f + 1) s (.deps (eid :: t)) =
      match getA s.effs eid with
      | none => run f s (.deps t)
      | some er =>
        match (match er.sched with
               | some wid => run f s (.job wid)
               | none => run f s (.invoke eid)) with
        | (s1, .error m) => (s1, .error m)
        | (s1, .ok _) => run f s1 (.deps t) := rfl

theorem run_job (f : Nat) (s : St) (wid : Nat) :
    run (f + 1) s (.job wid) =
      match getA s.watches wid with
      | none => (s, .error "no such watch")
      | some w =>
        if w.stopped then (s, .ok .undef)
        else
          match run f s (.invoke w.eid) with
          | (s1, .error m) => (s1, .error m)
          | (s1, .ok v) =>
            match getA s1.watches wid with
            | none => (s1, .error "no such watch")
            | some w1 =>
              if hasChanged v w1.oldValue then
                ({ s1 with
                    log := s1.log ++ [LogEntry.cb w1.cb.tag v w1.oldValue]
                    watches := setA s1.watches wid
                      { w1 with
                        oldValue := shCopy v
                        cleanup := w1.cb.ret
                        stopped := if w1.once then true else w1.stopped } }, .ok .undef)
              else (s1, .ok .undef) := rfl

/-! ## Claim C1: track/trigger correctness for refs -/

/-- Reading `r.value` inside a running effect that is already the sole
registered dependent changes nothing: the re-registration is idempotent. -/
theorem run_readRef_fix {s : St} {r : Nat} {v : Val} {l : List Nat} {e : Nat} (f : Nat)
    (hv : getA s.refs r = some v) (ha : s.active = some e)
    (hd : getA s.deps (.ref r, "value") = some l) (hm : e ∈ l) :
    run (f + 1) s (.exp (.readRef r)) = (s, .ok v) := by
  rw [run_exp_readRef, hv]
  simp only [trackD_of_mem ha hd hm]

/-- An effect body that reads `r.value` any number of times, run while
already registered, leaves the state exactly as it was (dependent
registration is idempotent) and returns the stored value. -/
theorem run_readN_fix {s : St} {r : Nat} {v : Val} {l : List Nat} {e : Nat} :
    ∀ (k f : Nat), k + 1 ≤ f →
      getA s.refs r = some v → s.active = some e →
      getA s.deps (.ref r, "value") = some l → e ∈ l →
      run f s (.exp (readN k r)) = (s, .ok v) := by
  intro k
  induction k with
  | zero =>
    intro f hf hv ha hd hm
    obtain ⟨g, rfl⟩ : ∃ g, f = g + 1 := ⟨f - 1, by omega⟩
    exact run_readRef_fix g hv ha hd hm
  | succ k ih =>
    intro f hf hv ha hd hm
    obtain ⟨g, rfl⟩ : ∃ g, f = g + 1 := ⟨f - 1, by omega⟩
    rw [show readN (k + 1) r = .seq (.readRef r) (readN k r) from rfl, run_exp_seq]
    have h1 : run g s (.exp (.readRef r)) = (s, .ok v) := by
      obtain ⟨g2, rfl⟩ : ∃ g2, g = g2 + 1 := ⟨g - 1, by omega⟩
      exact run_readRef_fix g2 hv ha hd hm
    rw [h1]
    exact ih g (by omega) hv ha hd hm

/-- The steady state of claim C1: ref `r` holds `v`; effect `e`, whose
body reads `r.value` exactly `k + 1` times and which has no scheduler,
is the sole registered dependent of `(r, "value")`; no effect is
currently executing. -/
def C1Inv (s : St) (r e k : Nat) (v : Val) : Prop :=
  getA s.refs r = some v ∧
  getA s.deps (.ref r, "value") = some [e] ∧
  getA s.effs e = some ⟨.exp (readN k r), none⟩ ∧
  s.active = none

instance (s : St) (r e k : Nat) (v : Val) : Decidable (C1Inv s r e k v) := by
  unfold C1Inv
  infer_instance

/-- **C1** (track/trigger correctness).  In the steady state `C1Inv`
— one effect registered as dependent of a ref after reading its value
during execution, however many times it read it (`k + 1` reads, with
registration idempotent) — a write of a strictly different value `w`
re-invokes the effect exactly once: the final state is the old state
with the ref updated and precisely one new `run e` log entry, and the
steady state holds again (so the next write behaves the same); a write
of the currently stored value leaves the state completely unchanged
and re-invokes nothing. -/
theorem claim1_ref_write_reinvokes_exactly_once
    (s : St) (r e k : Nat) (v w : Val) (f : Nat)
    (hInv : C1Inv s r e k v) (hf : k + 5 ≤ f) :
    (w ≠ v →
      setRefOp f s r w =
        ({ s with refs := setA s.refs r w, log := s.log ++ [.run e] }, .ok .undef) ∧
      C1Inv { s with refs := setA s.refs r w, log := s.log ++ [.run e] } r e k w) ∧
    setRefOp f s r v = (s, .ok .undef) := by
  obtain ⟨hv, hd, he, ha⟩ := hInv
  constructor
  · intro hw
    obtain ⟨d, rfl⟩ : ∃ d, f = ((((k + 1 + d) + 1) + 1) + 1) + 1 := ⟨f - k - 5, by omega⟩
    have hvw : ¬ (v = w) := fun hh => hw hh.symm
    have hstep :
        setRefOp ((((k + 1 + d) + 1) + 1) + 1 + 1) s r w =
          ({ s with refs := setA s.refs r w, log := s.log ++ [.run e] }, .ok .undef) := by
      simp only [setRefOp, hv, if_neg hvw]
      rw [triggerKey, run_trig]
      have hdep : depsOf { s with refs := setA s.refs r w } (.ref r) "value" = [e] := by
        rw [depsOf]
        show (getA s.deps (.ref r, "value")).getD [] = [e]
        rw [hd]
        rfl
      rw [hdep, run_deps_cons]
      have he2 : getA ({ s with refs := setA s.refs r w } : St).effs e =
          some ⟨.exp (readN k r), none⟩ := he
      rw [he2]
      simp only
      rw [run_invoke]
      have he3 : getA ({ s with
          refs := setA s.refs r w
          active := some e
          log := s.log ++ [.run e] } : St).effs e = some ⟨.exp (readN k r), none⟩ := he
      rw [he3]
      simp only
      rw [run_body_exp]
      have hfix : run (k + 1 + d)
          { s with
            refs := setA s.refs r w
            active := some e
            log := s.log ++ [.run e] }
          (.exp (readN k r)) =
          ({ s with
             refs := setA s.refs r w
             active := some e
             log := s.log ++ [.run e] },
           .ok w) :=
        run_readN_fix k (k + 1 + d) (by omega) (by exact getA_setA_self s.refs r w) rfl hd
          (by simp)
      rw [hfix]
      simp only
      rw [run_deps_nil]
      simp [Prod.mk.injEq, St.mk.injEq, ha]
    refine ⟨hstep, ?_⟩
    exact ⟨getA_setA_self s.refs r w, hd, he, ha⟩
  · simp [setRefOp, hv]

/-- Concrete C1 state: `const r = useRef(1); effect(() => { r.value;
r.value })` — ref id 0, effect id 1, body reading the ref twice. -/
def c1SetupSt : St :=
  (effectOp 9 (useRefOp init (.num 1)).1 (.exp (readN 1 0)) none false).1

/-- Witness for C1: after the setup above, writing `2` re-invokes the
effect exactly once (despite the double read), and writing back the
stored `1` re-invokes nothing and changes nothing. -/
theorem claim1_witness :
    setRefOp 9 c1SetupSt 0 (.num 2) =
      ({ c1SetupSt with
         refs := setA c1SetupSt.refs 0 (.num 2)
         log := c1SetupSt.log ++ [.run 1] }, .ok .undef) ∧
    C1Inv { c1SetupSt with
            refs := setA c1SetupSt.refs 0 (.num 2)
            log := c1SetupSt.log ++ [.run 1] } 0 1 1 (.num 2) ∧
    setRefOp 9 c1SetupSt 0 (.num 1) = (c1SetupSt, .ok .undef) := by
  have h := claim1_ref_write_reinvokes_exactly_once c1SetupSt 0 1 1 (.num 1) (.num 2) 9
    (by decide) (by omega)
  obtain ⟨h1, h2⟩ := h
  obtain ⟨ha, hb⟩ := h1 (by decide)
  exact ⟨ha, hb, h2⟩

/-! ## Claim C5: exceptions propagate, the active-effect marker is released -/

/-- **C5** (error handling in effects).  (1) Invoking any existing
effect leaves the Active Effect Marker empty afterwards, whatever the
body did — the `finally` of `effectFn` always resets `activeEffect` —
so in particular a throwing body cannot leave the marker stuck.
(2) A body that throws propagates its exception unsuppressed to the
invoker: the invocation's result is that very error, and the state
records the invocation but keeps `active = none`.  (3) With the marker
empty, reading reactive state registers no dependent: `track` is a
no-op and the read leaves the state untouched. -/
theorem claim5_error_propagation_and_marker_release :
    (∀ (f : Nat) (s : St) (e : Nat) (er : EffRec), 1 ≤ f → getA s.effs e = some er →
      ((run f s (.invoke e)).1).active = none) ∧
    (∀ (f : Nat) (s : St) (e : Nat) (m : String) (sch : Option Nat), 3 ≤ f →
      getA s.effs e = some ⟨.exp (.throwErr m), sch⟩ →
      run f s (.invoke e) =
        ({ s with active := none, log := s.log ++ [.run e] }, .error m)) ∧
    (∀ (f : Nat) (s : St) (r : Nat) (v : Val), 1 ≤ f →
      s.active = none → getA s.refs r = some v →
      run f s (.exp (.readRef r)) = (s, .ok v)) := by
  refine ⟨?_, ?_, ?_⟩
  · intro f s e er hf her
    obtain ⟨g, rfl⟩ : ∃ g, f = g + 1 := ⟨f - 1, by omega⟩
    rw [run_invoke, her]
  · intro f s e m sch hf her
    obtain ⟨g, rfl⟩ : ∃ g, f = ((g + 1) + 1) + 1 := ⟨f - 3, by omega⟩
    rw [run_invoke, her]
    simp only
    rw [run_body_exp, run_exp_throwErr]
  · intro f s r v hf ha hv
    obtain ⟨g, rfl⟩ : ∃ g, f = g + 1 := ⟨f - 1, by omega⟩
    rw [run_exp_readRef, hv]
    simp only [trackD_of_active_none _ _ ha]

/-- Concrete C5 state: a lazy effect whose body throws `"boom"`. -/
def c5SetupSt : St := (effectOp 9 init (.exp (.throwErr "boom")) none true).1

/-- Witness for C5: invoking the throwing effect returns the error
`"boom"`, the marker is empty afterwards, and a subsequent top-level
ref read leaves the state untouched. -/
theorem claim5_witness :
    run 9 c5SetupSt (.invoke 0) =
      ({ c5SetupSt with active := none, log := c5SetupSt.log ++ [.run 0] }, .error "boom") ∧
    ((run 9 c5SetupSt (.invoke 0)).1).active = none ∧
    run 9 (useRefOp c5SetupSt (.num 4)).1 (.exp (.readRef 1)) =
      ((useRefOp c5SetupSt (.num 4)).1, .ok (.num 4)) := by
  obtain ⟨h1, h2, h3⟩ := claim5_error_propagation_and_marker_release
  exact ⟨h2 9 c5SetupSt 0 "boom" none (by omega) (by decide),
         h1 9 c5SetupSt 0 ⟨.exp (.throwErr "boom"), none⟩ (by omega) (by decide),
         h3 9 (useRefOp c5SetupSt (.num 4)).1 1 (.num 4) (by omega) (by decide) (by decide)⟩

/-! ## Claim C9: readonly wrappers never track reads, never trigger writes -/

/-- **C9** (readonly wrapper registers no dependents).  Reading any
property of a `useReadonly` wrapper leaves the state untouched — in
particular the dependency graph — whether or not an effect is
executing, because the readonly proxy has no `get` trap calling
`track`; the read returns the snapshot value.  Writes and deletions
through the wrapper emit only a `console.warn` diagnostic: they change
no reactive state and trigger nothing, so no write can ever re-invoke
an effect by way of a readonly wrapper. -/
theorem claim9_readonly_reads_never_track :
    (∀ (f : Nat) (s : St) (o : Nat) (k : String),
      (run (f + 1) s (.exp (.readRO o k))).1 = s) ∧
    (∀ (f : Nat) (s : St) (o : Nat) (k : String) (props : List (String × Val)),
      getA s.ros o = some props →
      run (f + 1) s (.exp (.readRO o k)) = (s, .ok ((getA props k).getD .undef))) ∧
    (∀ (s : St) (o : Nat) (k : String) (v : Val),
      (setROOp s o k v).1.deps = s.deps ∧ (setROOp s o k v).1.refs = s.refs ∧
      (setROOp s o k v).1.log =
        s.log ++ [.warn "Set operation on readonly object is not allowed"]) ∧
    (∀ (s : St) (o : Nat) (k : String),
      (deleteROOp s o k).1.deps = s.deps ∧
      (deleteROOp s o k).1.log =
        s.log ++ [.warn "Delete operation on readonly object is not allowed"]) := by
  refine ⟨?_, ?_, ?_, ?_⟩
  · intro f s o k
    cases h : getA s.ros o <;> simp [run_exp_readRO, h]
  · intro f s o k props hp
    rw [run_exp_readRO, hp]
  · intro s o k v
    exact ⟨rfl, rfl, rfl⟩
  · intro s o k
    exact ⟨rfl, rfl⟩

/-- Concrete C9 state: `useReadonly({ x: 3 })`, read while an effect is
marked active. -/
def c9SetupSt : St :=
  { (useReadonlyOp init [("x", .num 3)]).1 with active := some 7 }

/-- Witness for C9: even with an active effect, reading the readonly
property returns the snapshot value and the state (hence the
dependency graph) is untouched. -/
theorem claim9_witness :
    run 5 c9SetupSt (.exp (.readRO 0 "x")) = (c9SetupSt, .ok (.num 3)) ∧
    (run 5 c9SetupSt (.exp (.readRO 0 "x"))).1 = c9SetupSt := by
  obtain ⟨h1, h2, _, _⟩ := claim9_readonly_reads_never_track
  refine ⟨?_, h1 4 c9SetupSt 0 "x"⟩
  have h := h2 4 c9SetupSt 0 "x" [("x", .num 3)] (by decide)
  exact h.trans (by rfl)

/-! ## Claim C10: map iteration operations never track -/

/-- Concrete C10 scenario: an effect whose body only iterates the map
(`keys`, `values`, `entries`, `forEach`), then a `set` of a new key and
a `delete` of an existing key — both of which change contents and
size. -/
def c10SetupSt : St :=
  let p := useMapReactiveOp init [("x", .num 1)]
  let q := effectOp 9 p.1
    (.exp (.seq (.mapKeys 0)
      (.seq (.mapValues 0) (.seq (.mapEntries 0) (.mapForEach 0 "fe"))))) none false
  let r1 := mapSetOp 9 q.1 0 "y" (.num 2)
  (mapDeleteOp 9 r1.1 0 "x").1

/-- Bodies built only from the map iteration operations (`keys`,
`values`, `entries`, `forEach`), literals and sequencing. -/
def iterOnly : Exp → Bool
  | .lit _ => true
  | .mapKeys _ => true
  | .mapValues _ => true
  | .mapEntries _ => true
  | .mapForEach _ _ => true
  | .seq e1 e2 => iterOnly e1 && iterOnly e2
  | _ => false

/-- Evaluating an iteration-only body never touches the dependency
graph, whatever the state (in particular whatever effect is active):
none of the iteration operations calls `track`. -/
theorem run_iterOnly_preserves_deps :
    ∀ (e : Exp), iterOnly e = true → ∀ (f : Nat) (s : St),
      (run f s (.exp e)).1.deps = s.deps := by
  intro e
  induction e with
  | lit v =>
    intro _ f s
    cases f with
    | zero => rfl
    | succ g => rfl
  | mapKeys m =>
    intro _ f s
    cases f with
    | zero => rfl
    | succ g => cases h : getA s.maps m <;> simp [run_exp_mapKeys, h]
  | mapValues m =>
    intro _ f s
    cases f with
    | zero => rfl
    | succ g => cases h : getA s.maps m <;> simp [run_exp_mapValues, h]
  | mapEntries m =>
    intro _ f s
    cases f with
    | zero => rfl
    | succ g => cases h : getA s.maps m <;> simp [run_exp_mapEntries, h]
  | mapForEach m tag =>
    intro _ f s
    cases f with
    | zero => rfl
    | succ g => cases h : getA s.maps m <;> simp [run_exp_mapForEach, h]
  | seq e1 e2 ih1 ih2 =>
    intro hio f s
    rw [iterOnly, Bool.and_eq_true] at hio
    cases f with
    | zero => rfl
    | succ g =>
      rw [run_exp_seq]
      cases hr : run g s (.exp e1) with
      | mk s1 res =>
        have t1 : s1.deps = s.deps := by
          have := ih1 hio.1 g s
          rw [hr] at this
          exact this
        cases res with
        | error m => exact t1
        | ok v => exact (ih2 hio.2 g s1).trans t1
  | readRef r => intro hio; simp [iterOnly] at hio
  | readComputed c => intro hio; simp [iterOnly] at hio
  | readRO o k => intro hio; simp [iterOnly] at hio
  | mapGet m k => intro hio; simp [iterOnly] at hio
  | mapHas m k => intro hio; simp [iterOnly] at hio
  | mapSize m => intro hio; simp [iterOnly] at hio
  | throwErr m => intro hio; simp [iterOnly] at hio
  | note t => intro hio; simp [iterOnly] at hio

/-- **C10** (iteration does not track).  `keys()`, `values()` and
`entries()` leave the state completely untouched; `forEach` only
appends its visits to the log, leaving the dependency graph, refs and
maps untouched — none of the four calls `track`.  More: invoking any
effect whose body is built only from these operations preserves the
dependency graph, so such an effect never becomes a dependent of
anything and no later `trigger` can reach it.  Concretely (the
scenario) an effect that only iterates a reactive map is invoked once
when created and never again: after a `set` adding a new key and a
`delete` of an existing key, its run count is still 1 and the
dependency graph is still empty. -/
theorem claim10_map_iteration_never_tracks :
    (∀ (f : Nat) (s : St) (m : Nat), (run (f + 1) s (.exp (.mapKeys m))).1 = s) ∧
    (∀ (f : Nat) (s : St) (m : Nat), (run (f + 1) s (.exp (.mapValues m))).1 = s) ∧
    (∀ (f : Nat) (s : St) (m : Nat), (run (f + 1) s (.exp (.mapEntries m))).1 = s) ∧
    (∀ (f : Nat) (s : St) (m : Nat) (tag : String),
      (run (f + 1) s (.exp (.mapForEach m tag))).1.deps = s.deps ∧
      (run (f + 1) s (.exp (.mapForEach m tag))).1.refs = s.refs ∧
      (run (f + 1) s (.exp (.mapForEach m tag))).1.maps = s.maps) ∧
    (∀ (f : Nat) (s : St) (i : Nat) (er : EffRec) (b : Exp),
      getA s.effs i = some er → er.body = .exp b → iterOnly b = true →
      (run f s (.invoke i)).1.deps = s.deps) ∧
    countRun c10SetupSt.log 1 = 1 ∧ c10SetupSt.deps = [] := by
  refine ⟨?_, ?_, ?_, ?_, ?_, by decide, by decide⟩
  · intro f s m
    cases h : getA s.maps m <;> simp [run_exp_mapKeys, h]
  · intro f s m
    cases h : getA s.maps m <;> simp [run_exp_mapValues, h]
  · intro f s m
    cases h : getA s.maps m <;> simp [run_exp_mapEntries, h]
  · intro f s m tag
    cases h : getA s.maps m <;> simp [run_exp_mapForEach, h]
  · intro f s i er b hi hb hio
    cases f with
    | zero => rfl
    | succ g =>
      rw [run_invoke, hi]
      show ((run g { s with active := some i, log := s.log ++ [.run i] }
        (.body er.body)).1).deps = s.deps
      rw [hb]
      cases g with
      | zero => rfl
      | succ g2 =>
        rw [run_body_exp]
        exact run_iterOnly_preserves_deps b hio g2
          { s with active := some i, log := s.log ++ [.run i] }

/-- Witness for C10: the invoke conjunct applied to the scenario's
iteration-only effect (id 1) in the final scenario state. -/
theorem claim10_witness :
    (run 9 c10SetupSt (.invoke 1)).1.deps = c10SetupSt.deps := by
  exact claim10_map_iteration_never_tracks.2.2.2.2.1 9 c10SetupSt 1
    ⟨.exp (.seq (.mapKeys 0)
      (.seq (.mapValues 0) (.seq (.mapEntries 0) (.mapForEach 0 "fe")))), none⟩
    (.seq (.mapKeys 0) (.seq (.mapValues 0) (.seq (.mapEntries 0) (.mapForEach 0 "fe"))))
    (by decide) (by decide) (by decide)

/-! ## Claim C4: the reactive map size-watcher scenario -/

/-- The spec's scenario: `const m = makeReactiveMap(); m.watchSize(cb);
m.set('a', 1); m.set('a', 1); m.set('a', 2)` — map id 0, watch id 1,
watch effect id 2. -/
def c4SetupSt : St :=
  let p := useMapReactiveOp init []
  let q := watchSizeOp 20 p.1 0 ⟨"size", none⟩ ⟨false, false⟩
  let r1 := mapSetOp 20 q.1 0 "a" (.num 1)
  let r2 := mapSetOp 20 r1.1 0 "a" (.num 1)
  (mapSetOp 20 r2.1 0 "a" (.num 2)).1

/-- **C4** (size watcher fires exactly once).  In the scenario above
the size watcher's callback runs exactly once, for the first `set`
(size 0 → 1, old value 0, new value 1): the second `set` changes
nothing and triggers nothing, and the third changes the value — so it
does trigger the `"size"` key and re-runs the watch getter — but the
watcher's own change detection sees size 1 → 1 and does not invoke the
callback.  The full log makes this exact: three effect runs (initial
tracking run, first `set`, third `set`) and a single `cb` entry. -/
theorem claim4_map_size_watcher_scenario :
    c4SetupSt.log = [.run 2, .run 2, .cb "size" (.num 1) (.num 0), .run 2] ∧
    countCb c4SetupSt.log "size" = 1 ∧
    getA c4SetupSt.maps 0 = some [("a", .num 2)] := by
  refine ⟨by decide, by decide, by decide⟩

/-! ## Claim C2: computed laziness -/

/-- `const a = useRef(0); const c = useComputed(() => a.value)` — ref
id 0, computed id 1, internal invalidation effect id 2.  No read of
`c.value` has happened. -/
def c2SetupSt : St := (useComputedOp 9 (useRefOp init (.num 0)).1 (.readRef 0)).1

/-- First read of `c.value`. -/
def c2Read1 : St × Except String Val := run 9 c2SetupSt (.exp (.readComputed 1))

/-- Second read of `c.value`, no upstream change in between. -/
def c2Read2 : St × Except String Val := run 9 c2Read1.1 (.exp (.readComputed 1))

/-- An upstream change: `a.value = 5`. -/
def c2Upd : St := (setRefOp 9 c2Read2.1 0 (.num 5)).1

/-- Read of `c.value` after the upstream change. -/
def c2Read3 : St × Except String Val := run 9 c2Upd (.exp (.readComputed 1))

/-- **C2, counterexample.**  The claim says the derivation function of
a computed cell is not invoked until `.value` is read at least once.
On the code this is false at the very first input: `useComputed`
creates its internal invalidation effect *non-lazily*, so construction
itself invokes the derivation function once — here the derivation
counter is already 1 although `.value` has never been read (the
construction in `c2SetupSt` performs no read of the computed). -/
theorem claim2_counterexample :
    (getA c2SetupSt.comps 1).map CompRec.derivs = some 1 ∧
    ¬ (getA c2SetupSt.comps 1).map CompRec.derivs = some 0 := by
  refine ⟨by decide, by decide⟩

/-- **C2, amended** (computed laziness).  The derivation function is
invoked once at construction and once more per upstream change — both
by the non-lazy internal invalidation effect, independent of any read.
Apart from those, it runs only on a read that finds the dirty flag
set; in particular reading `.value` twice without an intervening
upstream change invokes it at most once across the two reads, and a
read of a clean cell returns the cache and only tracks (general
conjunct: for every state whose computed cell `c` is clean, a read
returns the cached value, touches the state only through `track`, and
leaves every computed record — hence the derivation counter —
unchanged).  Concretely: construction → 1 derivation; first read → 2;
second read → still 2 (and the state is entirely unchanged except by
idempotent re-tracking, here literally unchanged); upstream write → 3
(dirty again, no read involved); next read → 4, yielding the new
value. -/
theorem claim2_computed_laziness_amended :
    (getA c2SetupSt.comps 1).map CompRec.derivs = some 1 ∧
    c2Read1.2 = .ok (.num 0) ∧
    (getA c2Read1.1.comps 1).map CompRec.derivs = some 2 ∧
    c2Read2 = (c2Read1.1, .ok (.num 0)) ∧
    (getA c2Upd.comps 1).map CompRec.derivs = some 3 ∧
    (getA c2Upd.comps 1).map CompRec.dirty = some true ∧
    c2Read3.2 = .ok (.num 5) ∧
    (getA c2Read3.1.comps 1).map CompRec.derivs = some 4 ∧
    (∀ (f : Nat) (s : St) (c : Nat) (cr : CompRec),
      getA s.comps c = some cr → cr.dirty = false →
      run (f + 1) s (.exp (.readComputed c)) = (trackD s (.comp c) "value", .ok cr.val) ∧
      (trackD s (.comp c) "value").comps = s.comps) := by
  refine ⟨by decide, by decide, by decide, by decide, by decide, by decide, by decide, by decide,
    ?_⟩
  intro f s c cr hc hcd
  constructor
  · rw [run_exp_readComputed, hc]
    simp only [hcd]
    rw [if_neg (by simp)]
  · cases h : s.active <;> simp [trackD, h]

/-- Witness for C2 (amended): the general clean-read conjunct applied
to the concrete post-first-read state, whose computed cell is clean. -/
theorem claim2_witness :
    run 9 c2Read1.1 (.exp (.readComputed 1)) =
      (trackD c2Read1.1 (.comp 1) "value", .ok (.num 0)) ∧
    (trackD c2Read1.1 (.comp 1) "value").comps = c2Read1.1.comps := by
  have h := claim2_computed_laziness_amended
  have h9 := h.2.2.2.2.2.2.2.2 8 c2Read1.1 1
    ⟨.readRef 0, .num 0, false, 2⟩ (by decide) (by decide)
  exact h9

/-! ## Claim C6: idempotence of the watch stop function -/

/-- `const r = useRef(1); const stop = useWatch(r, cb)` where `cb`
returns a cleanup with an observable side effect (`note "cleanup"`).
Ref id 0, watch id 1, watch effect id 2. -/
def c6SetupW : St × Except String Nat :=
  useWatchOp 9 (useRefOp init (.num 1)).1 (.ref 0)
    ⟨"w", some (.note "cleanup")⟩ ⟨false, false⟩

/-- `r.value = 2`: the callback fires and its cleanup is captured. -/
def c6Fired : St := (setRefOp 9 c6SetupW.1 0 (.num 2)).1

/-- First call of the stop function. -/
def c6Stop1 : St := (stopOp 9 c6Fired 1).1

/-- Second call of the stop function. -/
def c6Stop2 : St := (stopOp 9 c6Stop1 1).1

/-- **C6, counterexample.**  The claim says a second invocation of the
stop function produces no additional observable effect and in
particular does not run the captured cleanup again.  On the code the
stop function is `() => { cleanup?.(); stop = true; }` and never
clears `cleanup`, so the second call re-runs it: the cleanup's
observable side effect occurs once after one stop and twice after two,
and the two states differ. -/
theorem claim6_counterexample :
    countNote c6Stop1.log "cleanup" = 1 ∧
    countNote c6Stop2.log "cleanup" = 2 ∧
    c6Stop2 ≠ c6Stop1 := by
  refine ⟨by decide, by decide, by decide⟩

/-- **C6, amended** (stop idempotence).  The stop function always sets
the stop flag; it is idempotent exactly when no cleanup is captured:
if the watcher's captured cleanup is `none`, stopping only sets the
flag and a second stop returns the very same state; if a cleanup is
captured, every call of the stop function re-runs that cleanup before
setting the flag (second conjunct), so repeated stops repeat the
cleanup's effects. -/
theorem claim6_stop_idempotent_amended :
    (∀ (f : Nat) (s : St) (i : Nat) (w : WatchRec),
      getA s.watches i = some w → w.cleanup = none →
      stopOp f s i =
        ({ s with watches := setA s.watches i { w with stopped := true } }, .ok .undef) ∧
      stopOp f (stopOp f s i).1 i = stopOp f s i) ∧
    (∀ (f : Nat) (s : St) (i : Nat) (w : WatchRec) (e : Exp) (s1 : St) (v : Val)
      (w1 : WatchRec),
      getA s.watches i = some w → w.cleanup = some e →
      evalExp f s e = (s1, .ok v) → getA s1.watches i = some w1 →
      stopOp f s i =
        ({ s1 with watches := setA s1.watches i { w1 with stopped := true } }, .ok .undef)) := by
  constructor
  · intro f s i w hw hc
    have hfirst : stopOp f s i =
        ({ s with watches := setA s.watches i { w with stopped := true } }, .ok .undef) := by
      simp only [stopOp, hw, hc]
    refine ⟨hfirst, ?_⟩
    rw [hfirst]
    have hw2 : getA (setA s.watches i { w with stopped := true }) i =
        some { w with stopped := true } := getA_setA_self _ _ _
    rw [hc] at hw2
    simp only [stopOp, hc, hw2, setA_setA]
  · intro f s i w e s1 v w1 hw hc hev hw1
    simp only [stopOp, hw, hc, hev, hw1]

/-- Witness for C6 (amended): stopping a watcher that has not captured
a cleanup (the freshly created watcher, before any change) is
idempotent. -/
theorem claim6_witness :
    stopOp 9 c6SetupW.1 1 =
      ({ c6SetupW.1 with
         watches := setA c6SetupW.1.watches 1
           ⟨2, ⟨"w", some (.note "cleanup")⟩, .num 1, none, true, false⟩ }, .ok .undef) ∧
    stopOp 9 (stopOp 9 c6SetupW.1 1).1 1 = stopOp 9 c6SetupW.1 1 := by
  have h := claim6_stop_idempotent_amended.1 9 c6SetupW.1 1
    ⟨2, ⟨"w", some (.note "cleanup")⟩, .num 1, none, false, false⟩ (by decide) (by decide)
  exact h

/-! ## Claim C3: watch immediate vs deferred -/

/-- `watch(useRef(undefined), cb, { immediate: true })`. -/
def c3UndefW : St × Except String Nat :=
  useWatchOp 9 (useRefOp init .undef).1 (.ref 0) ⟨"w", none⟩ ⟨true, false⟩

/-- **C3, counterexample.**  The claim says `watch(ref, cb,
{ immediate: true })` invokes `cb` synchronously during construction
for every reactive cell.  For a cell holding `undefined` it does not:
`oldValue` starts as `undefined`, so the immediate `job` sees
`hasChanged(undefined, undefined) = false` and skips the callback —
construction succeeds (the stop handle is returned) but the callback
log stays empty. -/
theorem claim3_counterexample :
    c3UndefW.2 = .ok 1 ∧ cbEntries c3UndefW.1.log = [] := by
  refine ⟨by decide, by decide⟩

/-- `shCopy` is the identity on structural values. -/
theorem shCopy_eq (v : Val) : shCopy v = v := by
  cases v <;> rfl

/-- The state after `const r = useRef(v); useWatch(r, cb)` (deferred):
ref id 0, watch id 1, watch effect id 2; the effect ran once purely to
establish tracking (one `run` entry, no `cb` entry), and the initial
value was captured as `oldValue`. -/
def c3DefSt (v : Val) (cb : Callback) : St :=
  { init with
    refs := [(0, v)]
    effs := [(2, ⟨.exp (.readRef 0), some 1⟩)]
    watches := [(1, ⟨2, cb, v, none, false, false⟩)]
    deps := [((Target.ref 0, "value"), [2])]
    log := [.run 2]
    fresh := 3 }

/-- **C3, amended** (watch immediate vs deferred).  For every cell
value `v` other than `undefined` and every callback: `useWatch(ref,
cb, { immediate: true })` invokes the callback synchronously during
construction with the current value as `newValue` and `undefined` as
`oldValue` (for a cell holding `undefined` the immediate call is
skipped by change detection — see the counterexample).  Without
`immediate`, construction runs the effect once purely for tracking and
does not invoke the callback; writing the current value back invokes
nothing and changes nothing; the first actual change `w ≠ v` invokes
the callback once, with `(w, v)`. -/
theorem claim3_watch_immediate_amended (v w : Val) (cb : Callback)
    (hv : v ≠ .undef) (hw : w ≠ v) :
    useWatchOp 9 (useRefOp init v).1 (.ref 0) cb ⟨true, false⟩ =
      ({ c3DefSt v cb with
         watches := [(1, ⟨2, cb, v, cb.ret, false, false⟩)]
         log := [.run 2, .cb cb.tag v .undef] }, .ok 1) ∧
    useWatchOp 9 (useRefOp init v).1 (.ref 0) cb ⟨false, false⟩ = (c3DefSt v cb, .ok 1) ∧
    cbEntries (c3DefSt v cb).log = [] ∧
    setRefOp 9 (c3DefSt v cb) 0 v = (c3DefSt v cb, .ok .undef) ∧
    setRefOp 9 (c3DefSt v cb) 0 w =
      ({ c3DefSt v cb with
         refs := [(0, w)]
         watches := [(1, ⟨2, cb, w, cb.ret, false, false⟩)]
         log := [.run 2, .run 2, .cb cb.tag w v] }, .ok .undef) := by
  have hchv : hasChanged v Val.undef = true := (hasChanged_iff _ _).mpr hv
  have hchw : hasChanged w v = true := (hasChanged_iff _ _).mpr hw
  refine ⟨?_, ?_, ?_, ?_, ?_⟩
  · simp [useWatchOp, normalize, useRefOp, init, run_job, run_invoke, run_body_exp,
      run_exp_readRef, getA, setA, trackD, depsOf, depInsert, shCopy_eq, hchv, c3DefSt]
  · simp [useWatchOp, normalize, useRefOp, init, invokeEffect, run_invoke, run_body_exp,
      run_exp_readRef, getA, setA, trackD, depsOf, depInsert, shCopy_eq, c3DefSt]
  · rfl
  · simp [setRefOp, c3DefSt, init, getA, setA]
  · have hvw : ¬ (v = w) := fun hh => hw hh.symm
    simp [setRefOp, c3DefSt, init, getA, setA, if_neg hvw, triggerKey, run_trig, depsOf,
      run_deps_cons, run_deps_nil, run_job, run_invoke, run_body_exp, run_exp_readRef,
      trackD, depInsert, shCopy_eq, hchw]

/-- Witness for C3 (amended) at `v = 7`, `w = 8`, `cb = ⟨"w", none⟩`. -/
theorem claim3_witness :
    useWatchOp 9 (useRefOp init (.num 7)).1 (.ref 0) ⟨"w", none⟩ ⟨true, false⟩ =
      ({ c3DefSt (.num 7) ⟨"w", none⟩ with
         watches := [(1, ⟨2, ⟨"w", none⟩, .num 7, none, false, false⟩)]
         log := [.run 2, .cb "w" (.num 7) .undef] }, .ok 1) ∧
    setRefOp 9 (c3DefSt (.num 7) ⟨"w", none⟩) 0 (.num 8) =
      ({ c3DefSt (.num 7) ⟨"w", none⟩ with
         refs := [(0, .num 8)]
         watches := [(1, ⟨2, ⟨"w", none⟩, .num 8, none, false, false⟩)]
         log := [.run 2, .run 2, .cb "w" (.num 8) (.num 7)] }, .ok .undef) := by
  have h := claim3_watch_immediate_amended (.num 7) (.num 8) ⟨"w", none⟩ (by decide) (by decide)
  exact ⟨h.1, h.2.2.2.2⟩

/-! ## Claim C7: array-source watchers and old-value snapshots -/

/-- The state after `const ra = useRef(a); const rb = useRef(b);
useWatch([ra, rb], cb)`: ref ids 0 and 1, watch id 2, watch effect id
3; the effect ran once for tracking (registering it as a dependent of
both refs) and captured a shallow copy of `[a, b]` as `oldValue`. -/
def c7Base (a b : Val) (cb : Callback) : St :=
  { init with
    refs := [(0, a), (1, b)]
    effs := [(3, ⟨.items [.ref 0, .ref 1], some 2⟩)]
    watches := [(2, ⟨3, cb, .arr [a, b], none, false, false⟩)]
    deps := [((Target.ref 0, "value"), [3]), ((Target.ref 1, "value"), [3])]
    log := [.run 3]
    fresh := 4 }

/-- **C7** (array-source diffing and snapshot old values).  For all
values `a b` and changed values `a2 ≠ a`, `b2 ≠ b`: the watcher over
`[refA, refB]` is created registered on both refs; a write to either
element invokes the callback (conjuncts 2 and 3), with `newValue` the
fresh value sequence and `oldValue` the snapshot `[a, b]` taken before
the change; and after a subsequent write to the other ref the log
still contains the first callback entry with its old snapshot intact —
the stored old value is a copy indexed by value, never aliased to the
live refs (conjunct 4: the full log after both writes). -/
theorem claim7_array_watch_snapshot (a b a2 b2 : Val) (cb : Callback)
    (ha : a2 ≠ a) (hb : b2 ≠ b) :
    useWatchOp 9 (useRefOp (useRefOp init a).1 b).1 (.arr [.ref 0, .ref 1]) cb
      ⟨false, false⟩ = (c7Base a b cb, .ok 2) ∧
    setRefOp 9 (c7Base a b cb) 0 a2 =
      ({ c7Base a b cb with
         refs := [(0, a2), (1, b)]
         watches := [(2, ⟨3, cb, .arr [a2, b], cb.ret, false, false⟩)]
         log := [.run 3, .run 3, .cb cb.tag (.arr [a2, b]) (.arr [a, b])] }, .ok .undef) ∧
    setRefOp 9 (c7Base a b cb) 1 b2 =
      ({ c7Base a b cb with
         refs := [(0, a), (1, b2)]
         watches := [(2, ⟨3, cb, .arr [a, b2], cb.ret, false, false⟩)]
         log := [.run 3, .run 3, .cb cb.tag (.arr [a, b2]) (.arr [a, b])] }, .ok .undef) ∧
    setRefOp 9
      ({ c7Base a b cb with
         refs := [(0, a2), (1, b)]
         watches := [(2, ⟨3, cb, .arr [a2, b], cb.ret, false, false⟩)]
         log := [.run 3, .run 3, .cb cb.tag (.arr [a2, b]) (.arr [a, b])] }) 1 b2 =
      ({ c7Base a b cb with
         refs := [(0, a2), (1, b2)]
         watches := [(2, ⟨3, cb, .arr [a2, b2], cb.ret, false, false⟩)]
         log := [.run 3, .run 3, .cb cb.tag (.arr [a2, b]) (.arr [a, b]),
                 .run 3, .cb cb.tag (.arr [a2, b2]) (.arr [a2, b])] }, .ok .undef) := by
  have hch1 : hasChanged (.arr [a2, b]) (.arr [a, b]) = true :=
    (hasChanged_iff _ _).mpr (by simp [ha])
  have hch2 : hasChanged (.arr [a, b2]) (.arr [a, b]) = true :=
    (hasChanged_iff _ _).mpr (by simp [hb])
  have hch3 : hasChanged (.arr [a2, b2]) (.arr [a2, b]) = true :=
    (hasChanged_iff _ _).mpr (by simp [hb])
  have ha2 : ¬ (a = a2) := fun hh => ha hh.symm
  have hb2 : ¬ (b = b2) := fun hh => hb hh.symm
  refine ⟨?_, ?_, ?_, ?_⟩
  · simp [useWatchOp, normalize, useRefOp, init, invokeEffect, run_invoke, run_body_items,
      run_items_cons, run_items_nil, run_exp_readRef, getA, setA, trackD, depsOf, depInsert,
      shCopy, c7Base]
  · simp [setRefOp, c7Base, init, getA, setA, if_neg ha2, triggerKey, run_trig, depsOf,
      run_deps_cons, run_deps_nil, run_job, run_invoke, run_body_items, run_items_cons,
      run_items_nil, run_exp_readRef, trackD, depInsert, shCopy, hch1]
  · simp [setRefOp, c7Base, init, getA, setA, if_neg hb2, triggerKey, run_trig, depsOf,
      run_deps_cons, run_deps_nil, run_job, run_invoke, run_body_items, run_items_cons,
      run_items_nil, run_exp_readRef, trackD, depInsert, shCopy, hch2]
  · simp [setRefOp, c7Base, init, getA, setA, if_neg hb2, triggerKey, run_trig, depsOf,
      run_deps_cons, run_deps_nil, run_job, run_invoke, run_body_items, run_items_cons,
      run_items_nil, run_exp_readRef, trackD, depInsert, shCopy, hch3]

/-- Witness for C7 at `a = 1, b = 2, a2 = 10, b2 = 20`,
`cb = ⟨"w", none⟩`: construction plus the write to the first ref. -/
theorem claim7_witness :
    useWatchOp 9 (useRefOp (useRefOp init (.num 1)).1 (.num 2)).1
      (.arr [.ref 0, .ref 1]) ⟨"w", none⟩ ⟨false, false⟩ =
      (c7Base (.num 1) (.num 2) ⟨"w", none⟩, .ok 2) ∧
    setRefOp 9 (c7Base (.num 1) (.num 2) ⟨"w", none⟩) 0 (.num 10) =
      ({ c7Base (.num 1) (.num 2) ⟨"w", none⟩ with
         refs := [(0, .num 10), (1, .num 2)]
         watches := [(2, ⟨3, ⟨"w", none⟩, .arr [.num 10, .num 2], none, false, false⟩)]
         log := [.run 3, .run 3,
                 .cb "w" (.arr [.num 10, .num 2]) (.arr [.num 1, .num 2])] }, .ok .undef) := by
  have h := claim7_array_watch_snapshot (.num 1) (.num 2) (.num 10) (.num 20) ⟨"w", none⟩
    (by decide) (by decide)
  exact ⟨h.1, h.2.1⟩

/-! ## Claim C8: malformed watch sources fail with "source error" -/

/-- `useWatch([ra, 42], cb)` — an array source whose second element is
neither a function nor a reactive cell. -/
def c8Try : St × Except String Nat :=
  useWatchOp 9 (useRefOp init (.num 1)).1 (.arr [.ref 0, .bad]) ⟨"w", none⟩ ⟨false, false⟩

/-- **C8** (malformed source).  (1) A source that is neither a
function, an array, nor a reactive cell makes `useWatch` throw
`"source error"` immediately, with the state completely unchanged — no
watcher of any kind is installed.  (2) An array source containing an
invalid element also makes construction throw `"source error"`
synchronously (the normalised getter throws during the initial run),
in both the deferred and the immediate variant; no stop handle is
returned and the callback is not invoked during construction, and
(3) it can never be invoked afterwards either: a later write to the
ref the partial run subscribed to rethrows `"source error"` from the
getter before the callback could run, so the callback log stays empty.  -/
theorem claim8_bad_source_error :
    (∀ (f : Nat) (s : St) (cb : Callback) (o : WOpts),
      useWatchOp f s .bad cb o = (s, .error "source error")) ∧
    (c8Try.2 = .error "source error" ∧ cbEntries c8Try.1.log = [] ∧
     (useWatchOp 9 (useRefOp init (.num 1)).1 (.arr [.ref 0, .bad]) ⟨"w", none⟩
        ⟨true, false⟩).2 = .error "source error") ∧
    ((setRefOp 9 c8Try.1 0 (.num 5)).2 = .error "source error" ∧
     cbEntries (setRefOp 9 c8Try.1 0 (.num 5)).1.log = []) := by
  refine ⟨?_, ⟨by decide, by decide, by decide⟩, ⟨by decide, by decide⟩⟩
  intro f s cb o
  simp [useWatchOp, normalize]

end Reactivity
